import Mathlib

/-!
Verification of the flamegraph-profiler core of this repository: the trace
line classifier, call-tree builder (`parseTracesOutput` / `addStackToTree`),
flame layout engine (`flattenFrames`), depth computation (`getMaxDepth`),
top-function table scraper (`parseTopOutput`) and the fallback demo profile
(`generateDemoProfile`).  Weights are embedded as rationals (JS numbers hold
integral sample counts exactly here; layout divides weights, which is exact
over ℚ).  JS regular expressions are embedded as decision procedures for the
language each regex accepts on the (already trimmed) strings the source
applies them to; the derivations are spelled out in the comments.
-/

namespace FlameSpec

/-- The whitespace class `\s` of JS regexes / `String.prototype.trim`,
restricted to the ASCII characters that can occur in tool output. -/
def isWs (c : Char) : Bool :=
  c = ' ' || c = '\t' || c = '\n' || c = '\r' || c = '\x0b' || c = '\x0c'

/-- `line.trim()`: strip leading and trailing whitespace. -/
def trimChars (l : List Char) : List Char :=
  ((l.dropWhile isWs).reverse.dropWhile isWs).reverse

/-- `input.split("\n")` on the character list of the input: JS `split` keeps
empty segments and yields `[""]` on the empty string. -/
def splitOnNl : List Char → List (List Char)
  | [] => [[]]
  | c :: cs =>
    if c = '\n' then [] :: splitOnNl cs
    else
      match splitOnNl cs with
      | r :: rs => (c :: r) :: rs
      | [] => [[c]]

/-- Numeric value of a digit string, as `parseInt(s, 10)` computes it for a
string of decimal digits. -/
def digitsToNat (l : List Char) : ℕ :=
  l.foldl (fun acc c => acc * 10 + (c.toNat - '0'.toNat)) 0

/-- A node of the profile call tree, `interface ProfileFrame` of the source
(`src/unnamed/part_000` and `Flamegraph.tsx`).  The optional `children` field
is embedded as a list, with `undefined` identified with `[]` (the source
treats both identically: `current.children || []`, `reduce` over `[]`). -/
structure ProfileFrame where
  name : String
  value : ℚ
  children : List ProfileFrame

/-- Boundary test of the classifier, in source order:
`trimmed.startsWith("---") || trimmed === ""`. -/
def isBoundary (l : List Char) : Bool :=
  ['-', '-', '-'].isPrefixOf l || l.isEmpty

/-- The sample-count regex `/^\s*(\d+)\s+[\d.]+[^\s]*\s*$/` of
`parseTracesOutput`, decided on the trimmed line it is applied to.  On a
string with no leading or trailing whitespace the regex matches exactly when
the line is `<digits><ws><tok>` where `tok` is non-empty, starts with a digit
or a dot, and contains no whitespace; in that case group 1 is the digit run
(maximal munch agrees with backtracking because a shorter `\d+` or `\s+`
would leave a digit facing `\s+` or a whitespace facing `[\d.]`). -/
def sampleCountMatch (l : List Char) : Option ℕ :=
  let d := l.takeWhile Char.isDigit
  let r1 := l.dropWhile Char.isDigit
  let w := r1.takeWhile isWs
  let t := r1.dropWhile isWs
  if d.isEmpty || w.isEmpty then none
  else
    match t with
    | [] => none
    | c :: cs =>
      if (c.isDigit || c = '.') && (c :: cs).all (fun x => !isWs x) then
        some (digitsToNat d)
      else none

/-- The character class `[\dx]` of the frame regex. -/
def isDigitOrX (c : Char) : Bool := c.isDigit || c = 'x'

/-- The frame regex `/^#\d+\s+[\dx]+\s+(.+?)\s+.+$/` of `parseTracesOutput`,
decided on the trimmed line, returning capture group 1.  After `#`, a digit
run, whitespace, a `[\dx]` run and the following whitespace run `w2` are
forced (maximal munch agrees with backtracking at each joint as above).  Let
`r4` be the rest.  Since the line has no trailing whitespace: if `r4`
contains whitespace, the greedy `\s+` keeps all of `w2` and the lazy group
is `r4` up to its first whitespace.  Otherwise the engine backtracks `\s+`;
`(.+?)\s+.+$` then needs two characters of `w2` after the group, so a match
exists only for `|w2| ≥ 3` and the group is the single whitespace character
at position `|w2| - 2` of `w2`. -/
def funcMatchName (l : List Char) : Option (List Char) :=
  match l with
  | '#' :: r0 =>
    let d := r0.takeWhile Char.isDigit
    let r1 := r0.dropWhile Char.isDigit
    if d.isEmpty then none
    else
      let w1 := r1.takeWhile isWs
      let r2 := r1.dropWhile isWs
      if w1.isEmpty then none
      else
        let a := r2.takeWhile isDigitOrX
        let r3 := r2.dropWhile isDigitOrX
        if a.isEmpty then none
        else
          let w2 := r3.takeWhile isWs
          let r4 := r3.dropWhile isWs
          if w2.isEmpty then none
          else if r4.any isWs then some (r4.takeWhile (fun c => !isWs c))
          else if 3 ≤ w2.length then some ((w2.drop (w2.length - 2)).take 1)
          else none
  | _ => none

/-- The noise filter `/^[\d.]+[^\s]*$/` applied to the first token of a
line: a non-empty token matches exactly when its first character is a digit
or a dot and no character is whitespace. -/
def numericLikeTok (t : List Char) : Bool :=
  match t with
  | [] => false
  | c :: cs => (c.isDigit || c = '.') && (c :: cs).all (fun x => !isWs x)

/-- Frame-name extraction of the classifier for a trimmed line that is
neither a boundary nor a sample count: the frame regex first; otherwise, for
a non-empty line not starting with `#`, the first whitespace-delimited token
unless it is numeric-like (`parseTracesOutput`, lines 164-174). -/
def lineFrameName (t : List Char) : Option (List Char) :=
  match funcMatchName t with
  | some nm => some nm
  | none =>
    if !t.isEmpty && !(['#'].isPrefixOf t) then
      let simpleName := t.takeWhile (fun c => !isWs c)
      if !simpleName.isEmpty && !numericLikeTok simpleName then some simpleName
      else none
    else none

/-- Replace the first frame in the list whose name is `nm` by `upd` of it;
if none matches, append `dflt` at the end (the `find` / `push` pair of
`addStackToTree`). -/
def updateFirst (nm : String) (upd : ProfileFrame → ProfileFrame)
    (dflt : ProfileFrame) : List ProfileFrame → List ProfileFrame
  | [] => [dflt]
  | c :: cs =>
    if c.name = nm then upd c :: cs else c :: updateFirst nm upd dflt cs

/-- The child-walking loop of `addStackToTree`: descend along `stack`,
adding `samples` to every node on the path, materialising missing children
(fresh child: weight `0` then `+= samples`, appended in first-seen order). -/
def insertStack : List String → ℚ → List ProfileFrame → List ProfileFrame
  | [], _, cs => cs
  | f :: rest, w, cs =>
    updateFirst f
      (fun c => ⟨c.name, c.value + w, insertStack rest w c.children⟩)
      ⟨f, w, insertStack rest w []⟩ cs

/-- `addStackToTree(root, stack, samples)` (`src/unnamed/part_000`,
lines 186-200): add `samples` to the root's weight and merge the root-first
`stack` into its children. -/
def addStackToTree (root : ProfileFrame) (stack : List String) (samples : ℚ) :
    ProfileFrame :=
  ⟨root.name, root.value + samples, insertStack stack samples root.children⟩

/-- The mutable locals of `parseTracesOutput`. -/
structure ParseState where
  root : ProfileFrame
  currentStack : List String
  currentSamples : ℚ

/-- One iteration of the line loop of `parseTracesOutput`: trim, then
boundary / sample-count / frame-name classification, flushing the reversed
accumulated stack on a boundary. -/
def processLine (st : ParseState) (line : List Char) : ParseState :=
  let trimmed := trimChars line
  if isBoundary trimmed then
    if st.currentStack.isEmpty then st
    else ⟨addStackToTree st.root st.currentStack.reverse st.currentSamples, [], 1⟩
  else
    match sampleCountMatch trimmed with
    | some n => ⟨st.root, st.currentStack, (n : ℚ)⟩
    | none =>
      match lineFrameName trimmed with
      | some nm => ⟨st.root, st.currentStack ++ [String.mk nm], st.currentSamples⟩
      | none => st

/-- `parseTracesOutput` (`src/unnamed/part_000`, lines 137-183): split the
input on newlines, run the line loop from a fresh root with stack `[]` and
sample weight `1`, and flush a trailing unfinished stack. -/
def parseTracesOutput (tracesOutput : String) : ProfileFrame :=
  let lines := splitOnNl tracesOutput.toList
  let st := lines.foldl processLine ⟨⟨"root", 0, []⟩, [], 1⟩
  if st.currentStack.isEmpty then st.root
  else addStackToTree st.root st.currentStack.reverse st.currentSamples

mutual
/-- `getMaxDepth(frame, currentDepth)` (`src/unnamed/part_000`, lines
129-134): `currentDepth` at a leaf, otherwise the maximum of the children's
depths one level down.  `Math.max` over the non-empty list of child results
(each `≥ currentDepth + 1 ≥ 1`) is the fold of `max` with base `0`. -/
def getMaxDepthAux : ProfileFrame → ℕ → ℕ
  | ⟨_, _, cs⟩, d => if cs.isEmpty then d else getMaxDepthChildren cs (d + 1)
/-- `Math.max(...frame.children.map(child => getMaxDepth(child, d + 1)))`. -/
def getMaxDepthChildren : List ProfileFrame → ℕ → ℕ
  | [], _ => 0
  | c :: cs, d => max (getMaxDepthAux c d) (getMaxDepthChildren cs d)
end

/-- `getMaxDepth(frame)` with the default `currentDepth = 0`. -/
def getMaxDepth (f : ProfileFrame) : ℕ := getMaxDepthAux f 0

/-- `totalChildValue = frame.children.reduce((sum, c) => sum + c.value, 0)`
(`Flamegraph.tsx`, line 52). -/
def totalChildValue (cs : List ProfileFrame) : ℚ := (cs.map (fun c => c.value)).sum

/-- One rectangle of the layout, `interface FlatFrame` of `Flamegraph.tsx`:
`x` and `width` are fractions of the root span `[0, 1]`. -/
structure FlatFrame where
  frame : ProfileFrame
  depth : ℕ
  x : ℚ
  width : ℚ

mutual
/-- `traverse(frame, depth, x, parentWidth)` of `flattenFrames`
(`Flamegraph.tsx`, lines 47-59): push the node's rectangle, then lay the
children contiguously from cursor `x`, each child with width
`parentWidth * (child.value / (totalChildValue || 1))`. -/
def flattenGo : ProfileFrame → ℕ → ℚ → ℚ → List FlatFrame
  | ⟨n, v, cs⟩, d, x, pw =>
    ⟨⟨n, v, cs⟩, d, x, pw⟩ ::
      flattenChildren cs (d + 1) x pw
        (if totalChildValue cs = 0 then 1 else totalChildValue cs)
/-- The child loop of `traverse`, with the running cursor as an argument. -/
def flattenChildren : List ProfileFrame → ℕ → ℚ → ℚ → ℚ → List FlatFrame
  | [], _, _, _, _ => []
  | c :: cs, d, cx, pw, t =>
    flattenGo c d cx (pw * (c.value / t)) ++
      flattenChildren cs d (cx + pw * (c.value / t)) pw t
end

/-- `flattenFrames(root)`: the recursion starts at `traverse(root, 0, 0, 1)`. -/
def flattenFrames (root : ProfileFrame) : List FlatFrame := flattenGo root 0 0 1

/-- `maxDepth` of the `Flamegraph` component (`Flamegraph.tsx`, lines
114-117): `Math.max(...flatFrames.map(f => f.depth)) + 1`; the list is
non-empty (the root rectangle is always emitted) and depths are naturals, so
`Math.max` is the fold of `max` with base `0`. -/
def componentMaxDepth (root : ProfileFrame) : ℕ :=
  ((flattenFrames root).map (fun r => r.depth)).foldr max 0 + 1

mutual
/-- Pre-order listing of the nodes of a tree: the node, then its children's
listings in order. -/
def preorder : ProfileFrame → List ProfileFrame
  | ⟨n, v, cs⟩ => ⟨n, v, cs⟩ :: preorderList cs
/-- Pre-order listing of a forest. -/
def preorderList : List ProfileFrame → List ProfileFrame
  | [] => []
  | c :: cs => preorder c ++ preorderList cs
end

mutual
/-- All weights in the tree are non-negative. -/
def frameNonNeg : ProfileFrame → Bool
  | ⟨_, v, cs⟩ => decide (0 ≤ v) && framesNonNeg cs
/-- All weights in the forest are non-negative. -/
def framesNonNeg : List ProfileFrame → Bool
  | [] => true
  | c :: cs => frameNonNeg c && framesNonNeg cs
end

/-- The `profileType` argument, `"cpu" | "heap"`. -/
inductive ProfileType where
  | cpu
  | heap

/-- One entry of the ranked top-function list,
`{ name, percentage, samples }`. -/
structure TopFunctionEntry where
  name : String
  percentage : ℚ
  samples : ℚ

/-- `interface ProfileData` (`src/unnamed/part_000`, lines 20-27), without
the optional `rawProfile` display string (an opaque text template whose
number formatting is floating-point rendering, irrelevant to every claim). -/
structure ProfileData where
  name : String
  duration : ℚ
  sampleCount : ℚ
  topFunctions : List TopFunctionEntry
  flamegraphData : ProfileFrame

/-- `path.basename(appPath, ".go")`: drop trailing slashes, keep the last
path component, and strip a proper `".go"` suffix. -/
def basenameGo (p : String) : String :=
  let rev := p.toList.reverse.dropWhile (fun c => c = '/')
  let base := (rev.takeWhile (fun c => c ≠ '/')).reverse
  if 3 < base.length && ['o', 'g', '.'].isPrefixOf base.reverse then
    String.mk (base.take (base.length - 3))
  else String.mk base

/-- The fixed demo flamegraph of `generateDemoProfile`
(`src/unnamed/part_000`, lines 230-393), transcribed literally; absent
`children` fields are `[]`. -/
def demoFlamegraph : ProfileFrame :=
  ⟨"root", 2000,
    [⟨"main.main", 2000,
      [⟨"main.runInefficiently", 2000,
        [⟨"main.inefficientSort", 280,
          [⟨"main.bubbleSort", 200, [⟨"runtime.memmove", 80, []⟩]⟩,
           ⟨"runtime.growslice", 60, []⟩,
           ⟨"runtime.makeslice", 20, []⟩]⟩,
         ⟨"main.heavyComputation", 320,
          [⟨"main.fibonacci", 200,
            [⟨"main.fibonacci", 150, [⟨"main.fibonacci", 100, []⟩]⟩]⟩,
           ⟨"math.Pow", 60, []⟩,
           ⟨"math.Sin", 30, []⟩,
           ⟨"math.Cos", 30, []⟩]⟩,
         ⟨"main.dataProcessingPipeline", 400,
          [⟨"main.generateRecords", 100,
            [⟨"main.generateRandomString", 40, []⟩,
             ⟨"main.generateMetadata", 30, [⟨"main.generateNestedValue", 20, []⟩]⟩,
             ⟨"fmt.Sprintf", 30, []⟩]⟩,
           ⟨"main.filterRecords", 80,
            [⟨"main.filterByValue", 30, []⟩,
             ⟨"main.filterByTags", 30, []⟩,
             ⟨"main.filterByTime", 20, []⟩]⟩,
           ⟨"main.transformRecords", 120,
            [⟨"main.transformSingleRecord", 100,
              [⟨"main.calculateComplexValue", 50, []⟩,
               ⟨"main.normalizeString", 30, []⟩,
               ⟨"main.deduplicateTags", 20, []⟩]⟩]⟩,
           ⟨"main.enrichRecords", 60,
            [⟨"main.computeRecordHash", 25, []⟩,
             ⟨"main.computeRecordScore", 20, []⟩,
             ⟨"main.categorizeRecord", 15, []⟩]⟩,
           ⟨"main.aggregateRecords", 40,
            [⟨"main.aggregateStdDev", 20, []⟩,
             ⟨"main.aggregateAvg", 10, []⟩,
             ⟨"main.aggregateSum", 10, []⟩]⟩]⟩,
         ⟨"main.cryptoOperations", 180,
          [⟨"main.hashChain", 100,
            [⟨"crypto/sha256.(*digest).Write", 50, []⟩,
             ⟨"crypto/md5.(*digest).Write", 30, []⟩]⟩,
           ⟨"main.hashWithSHA256", 50, []⟩,
           ⟨"main.hashWithMD5", 30, []⟩]⟩,
         ⟨"main.jsonSerializationMess", 200,
          [⟨"encoding/json.Marshal", 90,
            [⟨"encoding/json.(*encodeState).marshal", 70, []⟩]⟩,
           ⟨"encoding/json.Unmarshal", 80,
            [⟨"encoding/json.(*decodeState).unmarshal", 60, []⟩]⟩,
           ⟨"main.createComplexObject", 30, []⟩]⟩,
         ⟨"main.regexAbuse", 150,
          [⟨"main.findEmails", 60,
            [⟨"regexp.MustCompile", 40, []⟩,
             ⟨"regexp.(*Regexp).FindAllString", 20, []⟩]⟩,
           ⟨"main.findWords", 50, [⟨"regexp.MustCompile", 35, []⟩]⟩,
           ⟨"main.findNumbers", 40, [⟨"regexp.MustCompile", 25, []⟩]⟩]⟩,
         ⟨"main.concurrencyOverhead", 170,
          [⟨"main.mutexContention", 80,
            [⟨"sync.(*Mutex).Lock", 40, []⟩,
             ⟨"sync.(*Mutex).Unlock", 20, []⟩,
             ⟨"runtime.newproc", 20, []⟩]⟩,
           ⟨"runtime.newproc", 50, []⟩,
           ⟨"runtime.chanrecv", 25, []⟩,
           ⟨"runtime.chansend", 15, []⟩]⟩,
         ⟨"main.recursiveDataStructures", 160,
          [⟨"main.buildTree", 60,
            [⟨"main.buildTree", 40, [⟨"main.buildTree", 25, []⟩]⟩]⟩,
           ⟨"main.traverseTree", 40, []⟩,
           ⟨"main.sumTree", 35, []⟩,
           ⟨"main.findInTree", 25, []⟩]⟩,
         ⟨"main.memoryWaster", 100,
          [⟨"runtime.mallocgc", 60, []⟩,
           ⟨"runtime.growslice", 25, []⟩,
           ⟨"fmt.Sprintf", 15, []⟩]⟩,
         ⟨"main.stringConcatWaste", 40,
          [⟨"runtime.concatstrings", 25, []⟩,
           ⟨"runtime.slicebytetostring", 15, []⟩]⟩]⟩]⟩]⟩

/-- The fixed demo top-function list (`src/unnamed/part_000`, lines
395-406). -/
def demoTopFunctions : List TopFunctionEntry :=
  [⟨"main.dataProcessingPipeline", 20, 400⟩,
   ⟨"main.heavyComputation", 16, 320⟩,
   ⟨"main.inefficientSort", 14, 280⟩,
   ⟨"main.jsonSerializationMess", 10, 200⟩,
   ⟨"main.fibonacci", 10, 200⟩,
   ⟨"main.cryptoOperations", 9, 180⟩,
   ⟨"main.concurrencyOverhead", 85/10, 170⟩,
   ⟨"main.recursiveDataStructures", 8, 160⟩,
   ⟨"main.regexAbuse", 75/10, 150⟩,
   ⟨"main.transformRecords", 6, 120⟩]

/-- `generateDemoProfile(appPath, duration, profileType)`
(`src/unnamed/part_000`, lines 222-426): a pure function echoing its
arguments only into the `name` and `duration` labels, with the fixed tree,
list and sample count. -/
def generateDemoProfile (appPath : String) (duration : ℚ)
    (_profileType : ProfileType) : ProfileData :=
  ⟨basenameGo appPath, duration, 2000, demoTopFunctions, demoFlamegraph⟩

/-- The word-character class `\w` of JS regexes, `[A-Za-z0-9_]`. -/
def isWordChar (c : Char) : Bool := c.isAlpha || c.isDigit || c = '_'

/-- The class `[\d.]`. -/
def isDigitDot (c : Char) : Bool := c.isDigit || c = '.'

/-- `parseFloat` on a token drawn from `[\d.]+`: the longest decimal prefix
`<digits>[.<digits>]`, exact over ℚ.  A token with no leading digits and no
digits after its first dot (such as `"."`) yields `NaN` in JS; `NaN` has no
rational embedding and is mapped to `0` here — no claim depends on the
numeric value of a percentage. -/
def parseFloatQ (l : List Char) : ℚ :=
  let ip := l.takeWhile Char.isDigit
  let r1 := l.dropWhile Char.isDigit
  let fp := match r1 with
    | '.' :: r => r.takeWhile Char.isDigit
    | _ => []
  ((digitsToNat ip : ℚ) + (digitsToNat fp : ℚ) / (10 ^ fp.length : ℕ))

/-- `Math.round`: round half toward positive infinity. -/
def jsRound (q : ℚ) : ℚ := ((⌊q + 1 / 2⌋ : ℤ) : ℚ)

/-- The row regex of `parseTopOutput`,
`/^\s*([\d.]+\w*)\s+([\d.]+)%\s+([\d.]+)%\s+([\d.]+\w*)\s+([\d.]+)%\s+(.+)$/`,
decided on the raw line; returns (group 6, group 2).  Each of the five
leading tokens is a maximal non-whitespace run of the stated shape followed
by mandatory whitespace (maximal munch agrees with backtracking: `[\d.]`,
`\w`, `%` and `\s` are pairwise disjoint at every joint).  After the fifth
token's `%`, let `wr` be the whitespace run and `rem` the rest of the line:
if `rem` is non-empty the greedy `.+$` takes all of `rem`; if the line ends
in `wr`, backtracking on `\s+` leaves a match only for `|wr| ≥ 2`, with
group 6 the last whitespace character. -/
def topRowMatch (l : List Char) : Option (List Char × List Char) :=
  let r0 := l.dropWhile isWs
  let p1 := r0.takeWhile isDigitDot
  let q1 := r0.dropWhile isDigitDot
  if p1.isEmpty then none
  else
    let r1 := q1.dropWhile isWordChar
    let w1 := r1.takeWhile isWs
    let r2 := r1.dropWhile isWs
    if w1.isEmpty then none
    else
      let p2 := r2.takeWhile isDigitDot
      let q2 := r2.dropWhile isDigitDot
      if p2.isEmpty then none
      else
        match q2 with
        | '%' :: r3 =>
          let w2 := r3.takeWhile isWs
          let r4 := r3.dropWhile isWs
          if w2.isEmpty then none
          else
            let p3 := r4.takeWhile isDigitDot
            let q3 := r4.dropWhile isDigitDot
            if p3.isEmpty then none
            else
              match q3 with
              | '%' :: r5 =>
                let w3 := r5.takeWhile isWs
                let r6 := r5.dropWhile isWs
                if w3.isEmpty then none
                else
                  let p4 := r6.takeWhile isDigitDot
                  let q4 := r6.dropWhile isDigitDot
                  if p4.isEmpty then none
                  else
                    let r7 := q4.dropWhile isWordChar
                    let w4 := r7.takeWhile isWs
                    let r8 := r7.dropWhile isWs
                    if w4.isEmpty then none
                    else
                      let p5 := r8.takeWhile isDigitDot
                      let q5 := r8.dropWhile isDigitDot
                      if p5.isEmpty then none
                      else
                        match q5 with
                        | '%' :: r9 =>
                          let wr := r9.takeWhile isWs
                          let rem := r9.dropWhile isWs
                          if wr.isEmpty then none
                          else if !rem.isEmpty then some (rem, p2)
                          else if 2 ≤ wr.length then
                            some (wr.drop (wr.length - 1), p2)
                          else none
                        | _ => none
              | _ => none
        | _ => none

/-- `parseTopOutput(topOutput, totalSamples)` (`src/unnamed/part_000`, lines
203-219): scan the lines for rows of the six-column shape, build
`{ name: group6.trim(), percentage: parseFloat(group2),
samples: Math.round(percentage / 100 * totalSamples) }`, and keep the first
ten results. -/
def parseTopOutput (topOutput : String) (totalSamples : ℚ) :
    List TopFunctionEntry :=
  let lines := splitOnNl topOutput.toList
  let results := lines.filterMap (fun line =>
    (topRowMatch line).map (fun m =>
      let percentage := parseFloatQ m.2
      ⟨String.mk (trimChars m.1), percentage,
        jsRound (percentage / 100 * totalSamples)⟩))
  results.take 10

/-! ### Concrete fixtures used by witnesses and counterexamples -/

/-- The round-trip input of the specification, four lines joined by `\n`. -/
def c6Input : String := "1   10ms\n#0 0x1234 main.foo +0x10\n#1 0x5678 main.bar +0x20\n---"

/-- A parent whose two children both have weight zero. -/
def zeroChildTree : ProfileFrame := ⟨"p", 1, [⟨"a", 0, []⟩, ⟨"b", 0, []⟩]⟩

/-- A root whose second child has weight zero: the first child fills the
whole span, so the second child's rectangle starts at the right edge. -/
def trailingZeroTree : ProfileFrame := ⟨"root", 1, [⟨"a", 1, []⟩, ⟨"b", 0, []⟩]⟩

/-- A root with no children. -/
def emptyRoot : ProfileFrame := ⟨"root", 0, []⟩

/-- The two-stack scenario of the specification merged into a fresh root:
`root 8 → a 8 → (b 3, c 5)`. -/
def sampleTreeA : ProfileFrame :=
  ⟨"root", 8, [⟨"a", 8, [⟨"b", 3, []⟩, ⟨"c", 5, []⟩]⟩]⟩

/-! ### C1: the root's weight after merging is the sum of the stack weights -/

/-- Folding stack merges over any start tree adds the total merged weight to
the start tree's weight, whatever the stacks contain. -/
theorem foldl_addStackToTree_value (l : List (List String × ℚ)) (r : ProfileFrame) :
    (l.foldl (fun acc p => addStackToTree acc p.1 p.2) r).value
      = r.value + (l.map (fun p => p.2)).sum := by
  induction l generalizing r with
  | nil => simp
  | cons p l ih =>
    rw [List.foldl_cons, ih]
    simp only [addStackToTree, List.map_cons, List.sum_cons]
    ring

/-- C1: for every finite list of stacks with non-negative weights merged via
`addStackToTree` into a fresh root `{name := "root", value := 0, children := []}`,
the root's weight equals the sum of the supplied stack weights, and every
merge order (every permutation of the list) yields that same root weight. -/
theorem mergeStack_root_weight_sum (l : List (List String × ℚ))
    (hw : ∀ p ∈ l, 0 ≤ p.2) :
    (l.foldl (fun acc p => addStackToTree acc p.1 p.2)
        (⟨"root", 0, []⟩ : ProfileFrame)).value = (l.map (fun p => p.2)).sum ∧
    ∀ l2 : List (List String × ℚ), l.Perm l2 →
      (l2.foldl (fun acc p => addStackToTree acc p.1 p.2)
          (⟨"root", 0, []⟩ : ProfileFrame)).value = (l.map (fun p => p.2)).sum := by
  refine ⟨?_, ?_⟩
  · rw [foldl_addStackToTree_value]
    simp
  · intro l2 h
    rw [foldl_addStackToTree_value]
    simpa using ((h.map (fun p => p.2)).sum_eq).symm

/-- C1 witness: the two stacks `["a","b"]` of weight 3 and `["a","c"]` of
weight 5 merged into a fresh root give root weight 8. -/
theorem mergeStack_root_weight_sum_witness :
    (([(["a", "b"], (3 : ℚ)), (["a", "c"], 5)] : List (List String × ℚ)).foldl
        (fun acc p => addStackToTree acc p.1 p.2)
        (⟨"root", 0, []⟩ : ProfileFrame)).value = 8 := by
  have h := (mergeStack_root_weight_sum [(["a", "b"], (3 : ℚ)), (["a", "c"], 5)]
    (by intro p hp; simp only [List.mem_cons, List.mem_singleton] at hp
        rcases hp with h | h | h <;> first | (subst h; norm_num) | cases h)).1
  rw [h]
  norm_num

/-! ### C6: the specified round trip through classifier, builder and merge -/

/-- C6: on the four lines `"1   10ms"`, `"#0 0x1234 main.foo +0x10"`,
`"#1 0x5678 main.bar +0x20"`, `"---"`, the first three lines leave the
builder with sample weight 1 and the single accumulated stack
`["main.foo", "main.bar"]` (leaf-first, so root-first `["main.bar",
"main.foo"]` after the flush reverses it), and the whole input parses to the
chain `root → main.bar → main.foo` with every weight 1. -/
theorem parseTraces_roundTrip :
    ((splitOnNl c6Input.toList).take 3).foldl processLine
        ⟨⟨"root", 0, []⟩, [], 1⟩
      = ⟨⟨"root", 0, []⟩, ["main.foo", "main.bar"], 1⟩ ∧
    parseTracesOutput c6Input
      = ⟨"root", 1, [⟨"main.bar", 1, [⟨"main.foo", 1, []⟩]⟩]⟩ := by
  constructor <;>
    simp +decide [parseTracesOutput, splitOnNl, processLine, trimChars, isWs,
      isBoundary, sampleCountMatch, funcMatchName, lineFrameName, numericLikeTok,
      digitsToNat, isDigitOrX, addStackToTree, insertStack, updateFirst, c6Input,
      String.toList]

/-! ### C9: the fallback synthesizer is fixed-shape with root weight 2000 -/

/-- C9: `generateDemoProfile` is a pure function of its three arguments; its
flamegraph, top-function list and sample count do not depend on the
arguments at all, the root's weight is exactly 2000, its only top-level
child is `"main.main"` with weight 2000, and the top-level children's
weights sum to the root's weight 2000. -/
theorem generateDemoProfile_spec (appPath : String) (duration : ℚ)
    (pt : ProfileType) :
    (generateDemoProfile appPath duration pt).flamegraphData = demoFlamegraph ∧
    (generateDemoProfile appPath duration pt).topFunctions = demoTopFunctions ∧
    (generateDemoProfile appPath duration pt).sampleCount = 2000 ∧
    (generateDemoProfile appPath duration pt).flamegraphData.value = 2000 ∧
    ((generateDemoProfile appPath duration pt).flamegraphData.children.map
        (fun c => (c.name, c.value))) = [("main.main", (2000 : ℚ))] ∧
    totalChildValue (generateDemoProfile appPath duration pt).flamegraphData.children
      = 2000 := by
  refine ⟨rfl, rfl, rfl, rfl, rfl, ?_⟩
  norm_num [totalChildValue, generateDemoProfile, demoFlamegraph]

/-! ### C10: the top-output scraper returns at most ten rows and never fails -/

/-- C10: for every input text and every total-sample value, `parseTopOutput`
returns at most ten entries (it is a total function, so it cannot raise),
and returns the empty list whenever no line of the input matches the
six-column row pattern. -/
theorem parseTopOutput_spec (topOutput : String) (totalSamples : ℚ) :
    (parseTopOutput topOutput totalSamples).length ≤ 10 ∧
    ((∀ l ∈ splitOnNl topOutput.toList, topRowMatch l = none) →
      parseTopOutput topOutput totalSamples = []) := by
  constructor
  · simp only [parseTopOutput, List.length_take]
    omega
  · intro h
    simp only [parseTopOutput, List.take_eq_nil_iff]
    right
    rw [List.filterMap_eq_nil_iff]
    intro l hl
    rw [h l hl]
    rfl

/-- C10 witness: the empty input yields the empty list. -/
theorem parseTopOutput_spec_witness : parseTopOutput "" 0 = [] :=
  (parseTopOutput_spec "" 0).2 (by decide)

/-! ### Layout machinery shared by C2, C3, C4 and C7 -/

mutual
/-- The frames of the rectangles emitted by `traverse` are the pre-order
listing of the subtree. -/
theorem flattenGo_map_frame : ∀ (f : ProfileFrame) (d : ℕ) (x pw : ℚ),
    (flattenGo f d x pw).map (fun r => r.frame) = preorder f
  | ⟨n, v, cs⟩, d, x, pw => by
    rw [flattenGo, preorder, List.map_cons,
      flattenChildren_map_frame cs (d + 1) x pw
        (if totalChildValue cs = 0 then 1 else totalChildValue cs)]
/-- The frames of the rectangles emitted by the child loop are the pre-order
listing of the forest. -/
theorem flattenChildren_map_frame : ∀ (cs : List ProfileFrame) (d : ℕ) (cx pw t : ℚ),
    (flattenChildren cs d cx pw t).map (fun r => r.frame) = preorderList cs
  | [], _, _, _, _ => by rw [flattenChildren, preorderList]; rfl
  | c :: cs, d, cx, pw, t => by
    rw [flattenChildren, preorderList, List.map_append,
      flattenGo_map_frame c d cx (pw * (c.value / t)),
      flattenChildren_map_frame cs d (cx + pw * (c.value / t)) pw t]
end

mutual
/-- Every rectangle of a subtree layout lies at least at the subtree's
depth. -/
theorem flattenGo_depth_ge : ∀ (f : ProfileFrame) (d : ℕ) (x pw : ℚ)
    (r : FlatFrame), r ∈ flattenGo f d x pw → d ≤ r.depth
  | ⟨n, v, cs⟩, d, x, pw, r, hr => by
    rw [flattenGo] at hr
    rcases List.mem_cons.mp hr with h | h
    · subst h; exact le_refl d
    · exact Nat.le_of_succ_le (flattenChildren_depth_ge cs (d + 1) x pw _ r h)
/-- Every rectangle of a child-loop layout lies at least at the loop's
depth. -/
theorem flattenChildren_depth_ge : ∀ (cs : List ProfileFrame) (d : ℕ)
    (cx pw t : ℚ) (r : FlatFrame), r ∈ flattenChildren cs d cx pw t → d ≤ r.depth
  | [], _, _, _, _, r, hr => by rw [flattenChildren] at hr; cases hr
  | c :: cs, d, cx, pw, t, r, hr => by
    rw [flattenChildren] at hr
    rcases List.mem_append.mp hr with h | h
    · exact flattenGo_depth_ge c d cx _ r h
    · exact flattenChildren_depth_ge cs d _ pw t r h
end

/-- Of a subtree layout rooted at depth `d`, only the root rectangle sits at
depth `d`. -/
theorem filter_flattenGo_depth (f : ProfileFrame) (d : ℕ) (x pw : ℚ) :
    (flattenGo f d x pw).filter (fun r => r.depth == d) = [⟨f, d, x, pw⟩] := by
  cases f with
  | mk n v cs =>
    rw [flattenGo, List.filter_cons]
    have hd : ((⟨⟨n, v, cs⟩, d, x, pw⟩ : FlatFrame).depth == d) = true := by
      simp
    rw [if_pos hd, List.filter_eq_nil_iff.mpr]
    intro r hr
    have := flattenChildren_depth_ge cs (d + 1) x pw _ r hr
    simp only [beq_iff_eq]
    omega

/-- The rectangles of a child loop at its own depth are exactly the direct
children, in order, each with width `pw * (child.value / t)`. -/
theorem flattenChildren_filter_depth (cs : List ProfileFrame) (d : ℕ) (cx pw t : ℚ) :
    ((flattenChildren cs d cx pw t).filter (fun r => r.depth == d)).map
        (fun r => (r.frame, r.width))
      = cs.map (fun c => (c, pw * (c.value / t))) := by
  induction cs generalizing cx with
  | nil => rw [flattenChildren]; rfl
  | cons c cs ih =>
    rw [flattenChildren, List.filter_append, filter_flattenGo_depth,
      List.map_append, ih]
    rfl

/-- Sum of the child widths in closed form. -/
theorem width_list_sum (cs : List ProfileFrame) (pw t : ℚ) :
    (cs.map (fun c => pw * (c.value / t))).sum = pw * totalChildValue cs / t := by
  induction cs with
  | nil => simp [totalChildValue]
  | cons c cs ih =>
    rw [List.map_cons, List.sum_cons, ih]
    simp only [totalChildValue, List.map_cons, List.sum_cons]
    ring

/-- With non-negative weights the total child weight is non-negative. -/
theorem framesNonNeg_total_nonneg : ∀ (cs : List ProfileFrame),
    framesNonNeg cs = true → 0 ≤ totalChildValue cs
  | [], _ => by simp [totalChildValue]
  | c :: cs, h => by
    rw [framesNonNeg, Bool.and_eq_true] at h
    have h1 : 0 ≤ c.value := by
      rcases c with ⟨n, v, cc⟩
      rw [frameNonNeg, Bool.and_eq_true, decide_eq_true_eq] at h
      exact h.1.1
    have h2 := framesNonNeg_total_nonneg cs h.2
    simp only [totalChildValue, List.map_cons, List.sum_cons]
    have : totalChildValue cs = (cs.map (fun c => c.value)).sum := rfl
    rw [this] at h2
    linarith

/-- The root weight of a non-negative tree is non-negative. -/
theorem frameNonNeg_value (f : ProfileFrame) (h : frameNonNeg f = true) :
    0 ≤ f.value := by
  rcases f with ⟨n, v, cs⟩
  rw [frameNonNeg, Bool.and_eq_true, decide_eq_true_eq] at h
  exact h.1

/-- A non-negative forest whose weights sum to zero is all zero weights. -/
theorem value_eq_zero_of_total_zero : ∀ (cs : List ProfileFrame),
    framesNonNeg cs = true → totalChildValue cs = 0 → ∀ c ∈ cs, c.value = 0
  | [], _, _, c, hc => by cases hc
  | c :: cs, h, h0, c', hc' => by
    rw [framesNonNeg, Bool.and_eq_true] at h
    have h1 : 0 ≤ c.value := frameNonNeg_value c h.1
    have h2 : 0 ≤ totalChildValue cs := framesNonNeg_total_nonneg cs h.2
    have hsplit : totalChildValue (c :: cs) = c.value + totalChildValue cs := by
      simp [totalChildValue]
    rw [hsplit] at h0
    rcases List.mem_cons.mp hc' with h' | h'
    · subst h'; linarith
    · exact value_eq_zero_of_total_zero cs h.2 (by linarith) c' h'

/-! ### C2: one rectangle per node, pre-order, children partition the width -/

/-- C2: `flattenFrames` emits exactly one rectangle per node of the tree
(the emitted frames are the pre-order listing of the nodes, so parents
precede all their descendants, and the output length equals the node
count); and at every subtree call — the node's own rectangle being the head
with width `pw` — the rectangles at the next depth are exactly the direct
children, and when the children's total weight is strictly positive the sum
of their widths equals the node's own width `pw`, exactly over ℚ. -/
theorem flattenFrames_spec (root f : ProfileFrame) (d : ℕ) (x pw : ℚ)
    (h : 0 < totalChildValue f.children) :
    (flattenFrames root).map (fun r => r.frame) = preorder root ∧
    (flattenFrames root).length = (preorder root).length ∧
    (flattenGo f d x pw).head? = some ⟨f, d, x, pw⟩ ∧
    ((flattenGo f d x pw).filter (fun r => r.depth == d + 1)).map (fun r => r.frame)
      = f.children ∧
    (((flattenGo f d x pw).filter (fun r => r.depth == d + 1)).map
        (fun r => r.width)).sum = pw := by
  rcases f with ⟨n, v, cs⟩
  simp only at h
  have hne : totalChildValue cs ≠ 0 := ne_of_gt h
  have hfilter :
      (flattenGo ⟨n, v, cs⟩ d x pw).filter (fun r => r.depth == d + 1)
        = (flattenChildren cs (d + 1) x pw
            (if totalChildValue cs = 0 then 1 else totalChildValue cs)).filter
            (fun r => r.depth == d + 1) := by
    rw [flattenGo, List.filter_cons]
    have : ((⟨⟨n, v, cs⟩, d, x, pw⟩ : FlatFrame).depth == d + 1) = false := by
      simp only [beq_eq_false_iff_ne]
      omega
    rw [if_neg (by rw [this]; exact Bool.false_ne_true)]
  have hpairs := flattenChildren_filter_depth cs (d + 1) x pw
    (if totalChildValue cs = 0 then 1 else totalChildValue cs)
  refine ⟨flattenGo_map_frame root 0 0 1, ?_, ?_, ?_, ?_⟩
  · have := congrArg List.length (flattenGo_map_frame root 0 0 1)
    simpa using this
  · rw [flattenGo]; rfl
  · have := congrArg (fun l => l.map Prod.fst) hpairs
    simp only [List.map_map] at this
    rw [hfilter]
    convert this using 1
    simp [Function.comp_def]
  · have := congrArg (fun l => (l.map Prod.snd).sum) hpairs
    simp only [List.map_map] at this
    rw [hfilter]
    have hw : (((flattenChildren cs (d + 1) x pw
        (if totalChildValue cs = 0 then 1 else totalChildValue cs)).filter
          (fun r => r.depth == d + 1)).map (fun r => r.width)).sum
        = ((cs.map (fun c => (c, pw * (c.value /
            (if totalChildValue cs = 0 then 1 else totalChildValue cs))))).map
              Prod.snd).sum := by
      convert this using 2
      simp [Function.comp_def]
    rw [hw]
    simp only [List.map_map]
    have : (cs.map (Prod.snd ∘ fun c => (c, pw * (c.value /
        (if totalChildValue cs = 0 then 1 else totalChildValue cs))))).sum
        = (cs.map (fun c => pw * (c.value /
            (if totalChildValue cs = 0 then 1 else totalChildValue cs)))).sum := by
      rfl
    rw [this, if_neg hne, width_list_sum, mul_div_assoc, div_self hne, mul_one]

/-- C2 witness: the specification's two-stack tree, at the node `"a"` of
width 1, children `b` and `c` of weights 3 and 5. -/
theorem flattenFrames_spec_witness :
    (flattenFrames sampleTreeA).map (fun r => r.frame) = preorder sampleTreeA ∧
    (flattenFrames sampleTreeA).length = (preorder sampleTreeA).length ∧
    (flattenGo ⟨"a", 8, [⟨"b", 3, []⟩, ⟨"c", 5, []⟩]⟩ 1 0 1).head?
      = some ⟨⟨"a", 8, [⟨"b", 3, []⟩, ⟨"c", 5, []⟩]⟩, 1, 0, 1⟩ ∧
    ((flattenGo ⟨"a", 8, [⟨"b", 3, []⟩, ⟨"c", 5, []⟩]⟩ 1 0 1).filter
        (fun r => r.depth == 1 + 1)).map (fun r => r.frame)
      = (⟨"a", 8, [⟨"b", 3, []⟩, ⟨"c", 5, []⟩]⟩ : ProfileFrame).children ∧
    (((flattenGo ⟨"a", 8, [⟨"b", 3, []⟩, ⟨"c", 5, []⟩]⟩ 1 0 1).filter
        (fun r => r.depth == 1 + 1)).map (fun r => r.width)).sum = 1 :=
  flattenFrames_spec sampleTreeA ⟨"a", 8, [⟨"b", 3, []⟩, ⟨"c", 5, []⟩]⟩ 1 0 1
    (by norm_num [totalChildValue])

/-! ### C3: zero-weight children do NOT get equal shares — they get width 0 -/

/-- C3 counterexample: in `zeroChildTree` the parent `"p"` has width 1 and
two children of weight 0; the claim gives each child width `1 / 2` summing
to 1, but the layout gives both children width 0, summing to 0, not 1. -/
theorem layout_zero_children_cex :
    ((flattenFrames zeroChildTree).filter (fun r => r.depth == 1)).map
        (fun r => r.width) = [0, 0] ∧
    ¬ ((((flattenFrames zeroChildTree).filter (fun r => r.depth == 1)).map
        (fun r => r.width)).sum = (1 : ℚ)) ∧
    ¬ (∀ r ∈ (flattenFrames zeroChildTree).filter (fun r => r.depth == 1),
        r.width = 1 / 2) := by
  have hval : ((flattenFrames zeroChildTree).filter (fun r => r.depth == 1)).map
      (fun r => r.width) = [0, 0] := by
    simp +decide [flattenFrames, flattenGo, flattenChildren, totalChildValue,
      zeroChildTree]
  refine ⟨hval, ?_, ?_⟩
  · intro h
    rw [hval] at h
    norm_num at h
  · intro h
    rcases hmem : (flattenFrames zeroChildTree).filter (fun r => r.depth == 1) with
      _ | ⟨r0, rest⟩
    · rw [hmem] at hval; cases hval
    · have h0 : r0.width = 1 / 2 := h r0 (by rw [hmem]; exact List.mem_cons_self r0 rest)
      have : r0.width = 0 := by
        rw [hmem] at hval
        simpa using congrArg List.head? hval
      rw [this] at h0
      norm_num at h0

/-- C3 amended: when the children's total weight is zero, the guard replaces
the divisor by 1, so each child's rectangle gets width
`pw * child.value`; with non-negative weights every such child has weight 0,
so all the children's widths are 0 and they sum to 0 — they do not share the
node's span. -/
theorem layout_zero_children_amended (f : ProfileFrame) (d : ℕ) (x pw : ℚ)
    (h0 : totalChildValue f.children = 0) (hn : framesNonNeg f.children = true) :
    ((flattenGo f d x pw).filter (fun r => r.depth == d + 1)).map (fun r => r.width)
      = f.children.map (fun _ => (0 : ℚ)) ∧
    (((flattenGo f d x pw).filter (fun r => r.depth == d + 1)).map
        (fun r => r.width)).sum = 0 := by
  rcases f with ⟨n, v, cs⟩
  simp only at h0 hn
  have hfilter :
      (flattenGo ⟨n, v, cs⟩ d x pw).filter (fun r => r.depth == d + 1)
        = (flattenChildren cs (d + 1) x pw
            (if totalChildValue cs = 0 then 1 else totalChildValue cs)).filter
            (fun r => r.depth == d + 1) := by
    rw [flattenGo, List.filter_cons]
    have : ((⟨⟨n, v, cs⟩, d, x, pw⟩ : FlatFrame).depth == d + 1) = false := by
      simp only [beq_eq_false_iff_ne]
      omega
    rw [if_neg (by rw [this]; exact Bool.false_ne_true)]
  have hpairs := flattenChildren_filter_depth cs (d + 1) x pw
    (if totalChildValue cs = 0 then 1 else totalChildValue cs)
  have hwidths : ((flattenGo ⟨n, v, cs⟩ d x pw).filter
      (fun r => r.depth == d + 1)).map (fun r => r.width)
      = cs.map (fun c => pw * (c.value / 1)) := by
    rw [hfilter, if_pos h0]
    have := congrArg (fun l => l.map Prod.snd) hpairs
    simp only [List.map_map] at this
    rw [if_pos h0] at this
    exact this
  have hzero : ∀ c ∈ cs, c.value = 0 := value_eq_zero_of_total_zero cs hn h0
  have hfinal : cs.map (fun c => pw * (c.value / 1)) = cs.map (fun _ => (0 : ℚ)) := by
    apply List.map_congr_left
    intro c hc
    rw [hzero c hc]
    ring
  refine ⟨by rw [hwidths, hfinal], ?_⟩
  rw [hwidths, hfinal]
  simp

/-- C3 amendment witness: at `zeroChildTree` laid out from the root call. -/
theorem layout_zero_children_amended_witness :
    ((flattenGo zeroChildTree 0 0 1).filter (fun r => r.depth == 0 + 1)).map
        (fun r => r.width) = zeroChildTree.children.map (fun _ => (0 : ℚ)) ∧
    (((flattenGo zeroChildTree 0 0 1).filter (fun r => r.depth == 0 + 1)).map
        (fun r => r.width)).sum = 0 :=
  layout_zero_children_amended zeroChildTree 0 0 1
    (by norm_num [totalChildValue, zeroChildTree])
    (by simp only [zeroChildTree, framesNonNeg, frameNonNeg, Bool.and_eq_true,
          decide_eq_true_eq]
        norm_num)

/-! ### C7: rectangle bounds -/

mutual
/-- Span invariant of `traverse`: from a non-negative subtree and a call
with `0 ≤ x`, `0 ≤ pw`, `x + pw ≤ 1`, every emitted rectangle satisfies
`0 ≤ x`, `0 ≤ width` and `x + width ≤ 1`. -/
theorem flattenGo_bounds : ∀ (f : ProfileFrame) (d : ℕ) (x pw : ℚ),
    frameNonNeg f = true → 0 ≤ x → 0 ≤ pw → x + pw ≤ 1 →
    ∀ r ∈ flattenGo f d x pw, 0 ≤ r.x ∧ 0 ≤ r.width ∧ r.x + r.width ≤ 1
  | ⟨n, v, cs⟩, d, x, pw, hf, hx, hpw, hxpw, r, hr => by
    rw [flattenGo] at hr
    have hcs : framesNonNeg cs = true := by
      rw [frameNonNeg, Bool.and_eq_true] at hf
      exact hf.2
    rcases List.mem_cons.mp hr with h | h
    · subst h; exact ⟨hx, hpw, hxpw⟩
    · have htot : 0 ≤ totalChildValue cs := framesNonNeg_total_nonneg cs hcs
      have htpos : 0 < (if totalChildValue cs = 0 then 1 else totalChildValue cs) := by
        rcases eq_or_ne (totalChildValue cs) 0 with h0 | h0
        · rw [if_pos h0]; norm_num
        · rw [if_neg h0]; exact lt_of_le_of_ne htot (Ne.symm h0)
      have hsum : x + pw * totalChildValue cs /
          (if totalChildValue cs = 0 then 1 else totalChildValue cs) ≤ 1 := by
        rcases eq_or_ne (totalChildValue cs) 0 with h0 | h0
        · rw [h0]
          simpa using le_trans (by linarith) hxpw
        · rw [if_neg h0, mul_div_assoc, div_self h0, mul_one]
          exact hxpw
      exact flattenChildren_bounds cs (d + 1) x pw
        (if totalChildValue cs = 0 then 1 else totalChildValue cs)
        hcs htpos hx hpw hsum r h
/-- Span invariant of the child loop: if the cursor plus the remaining
children's total width fits in `[0, 1]`, so does every emitted rectangle. -/
theorem flattenChildren_bounds : ∀ (cs : List ProfileFrame) (d : ℕ)
    (cx pw t : ℚ), framesNonNeg cs = true → 0 < t → 0 ≤ cx → 0 ≤ pw →
    cx + pw * totalChildValue cs / t ≤ 1 →
    ∀ r ∈ flattenChildren cs d cx pw t, 0 ≤ r.x ∧ 0 ≤ r.width ∧ r.x + r.width ≤ 1
  | [], _, _, _, _, _, _, _, _, _, r, hr => by
    rw [flattenChildren] at hr; cases hr
  | c :: cs, d, cx, pw, t, hall, ht, hcx, hpw, hbound, r, hr => by
    rw [flattenChildren] at hr
    rw [framesNonNeg, Bool.and_eq_true] at hall
    have hv : 0 ≤ c.value := frameNonNeg_value c hall.1
    have hrest : 0 ≤ totalChildValue cs := framesNonNeg_total_nonneg cs hall.2
    have hcw : 0 ≤ pw * (c.value / t) := mul_nonneg hpw (div_nonneg hv ht.le)
    have hB : 0 ≤ pw * totalChildValue cs / t :=
      div_nonneg (mul_nonneg hpw hrest) ht.le
    have hsplit : pw * totalChildValue (c :: cs) / t
        = pw * (c.value / t) + pw * totalChildValue cs / t := by
      have : totalChildValue (c :: cs) = c.value + totalChildValue cs := by
        simp [totalChildValue]
      rw [this]; ring
    rw [hsplit] at hbound
    rcases List.mem_append.mp hr with h | h
    · exact flattenGo_bounds c d cx (pw * (c.value / t)) hall.1 hcx hcw
        (by linarith) r h
    · exact flattenChildren_bounds cs d (cx + pw * (c.value / t)) pw t
        hall.2 ht (by linarith) hpw (by linarith) r h
end

/-- C7 counterexample: in `trailingZeroTree` (non-negative weights) the
zero-weight child `"b"` is laid out after the full-width child `"a"`, so its
rectangle has `x = 1`, outside the half-open interval `[0, 1)` the claim
asserts. -/
theorem layout_x_cex :
    frameNonNeg trailingZeroTree = true ∧
    (flattenFrames trailingZeroTree).map (fun r => (r.x, r.width))
      = [((0 : ℚ), (1 : ℚ)), (0, 1), (1, 0)] ∧
    ¬ (∀ r ∈ flattenFrames trailingZeroTree,
        0 ≤ r.x ∧ r.x < 1 ∧ r.x + r.width ≤ 1) := by
  have hval : (flattenFrames trailingZeroTree).map (fun r => (r.x, r.width))
      = [((0 : ℚ), (1 : ℚ)), (0, 1), (1, 0)] := by
    simp +decide [flattenFrames, flattenGo, flattenChildren, totalChildValue,
      trailingZeroTree]
  refine ⟨?_, hval, ?_⟩
  · simp only [trailingZeroTree, frameNonNeg, framesNonNeg, Bool.and_eq_true,
      decide_eq_true_eq]
    norm_num
  · intro h
    have hlist : flattenFrames trailingZeroTree
        = [⟨trailingZeroTree, 0, 0, 1⟩, ⟨⟨"a", 1, []⟩, 1, 0, 1⟩,
           ⟨⟨"b", 0, []⟩, 1, 1, 0⟩] := by
      simp +decide [flattenFrames, flattenGo, flattenChildren, totalChildValue,
        trailingZeroTree]
    rw [hlist] at h
    have hb := h ⟨⟨"b", 0, []⟩, 1, 1, 0⟩ (by simp)
    have : (1 : ℚ) < 1 := hb.2.1
    exact absurd this (lt_irrefl 1)

/-- C7 amended: for every tree with non-negative weights, every rectangle of
`flattenFrames` satisfies `0 ≤ x`, `0 ≤ width`, `x ≤ 1` and
`x + width ≤ 1` — exactly over ℚ; `x` can reach the closed right endpoint 1
(for trailing zero-weight children), so the interval is `[0, 1]`, not
`[0, 1)`. -/
theorem layout_bounds (f : ProfileFrame) (h : frameNonNeg f = true) :
    ∀ r ∈ flattenFrames f, 0 ≤ r.x ∧ 0 ≤ r.width ∧ r.x ≤ 1 ∧ r.x + r.width ≤ 1 := by
  intro r hr
  have := flattenGo_bounds f 0 0 1 h (le_refl 0) (by norm_num) (by norm_num) r hr
  exact ⟨this.1, this.2.1, by linarith [this.2.1, this.2.2], this.2.2⟩

/-- C7 amendment witness: the rectangle of node `"c"` in the specification's
two-stack tree sits at `x = 3/8` with width `5/8`, within the bounds. -/
theorem layout_bounds_witness :
    0 ≤ ((3 : ℚ) / 8) ∧ 0 ≤ ((5 : ℚ) / 8) ∧ ((3 : ℚ) / 8) ≤ 1 ∧
      ((3 : ℚ) / 8) + 5 / 8 ≤ 1 :=
  layout_bounds sampleTreeA
    (by simp only [sampleTreeA, frameNonNeg, framesNonNeg, Bool.and_eq_true,
          decide_eq_true_eq]
        norm_num)
    ⟨⟨"c", 5, []⟩, 2, 3 / 8, 5 / 8⟩
    (by simp +decide [flattenFrames, flattenGo, flattenChildren, totalChildValue,
          sampleTreeA]
        norm_num)

/-! ### C4: `getMaxDepth` versus the depths emitted by the layout -/

/-- Folding `max` with base 0 distributes over list append. -/
theorem foldr_max_append (a b : List ℕ) :
    (a ++ b).foldr max 0 = max (a.foldr max 0) (b.foldr max 0) := by
  induction a with
  | nil => simp
  | cons x a ih => simp [ih, Nat.max_assoc]

mutual
/-- `getMaxDepth` starting at `d` is at least `d`. -/
theorem le_getMaxDepthAux : ∀ (f : ProfileFrame) (d : ℕ), d ≤ getMaxDepthAux f d
  | ⟨n, v, cs⟩, d => by
    rw [getMaxDepthAux]
    rcases cs with _ | ⟨c, cs⟩
    · simp
    · simp only [List.isEmpty_cons, Bool.false_eq_true, if_false]
      exact Nat.le_of_succ_le (le_getMaxDepthChildren (c :: cs) (d + 1) (by simp))
/-- The children's maximum starting at `d` is at least `d` for a non-empty
forest. -/
theorem le_getMaxDepthChildren : ∀ (cs : List ProfileFrame) (d : ℕ),
    cs ≠ [] → d ≤ getMaxDepthChildren cs d
  | c :: cs, d, _ => by
    rw [getMaxDepthChildren]
    exact le_trans (le_getMaxDepthAux c d) (Nat.le_max_left _ _)
end

mutual
/-- The maximum depth over a subtree layout equals `getMaxDepth` of the
subtree started at the call's depth. -/
theorem flattenGo_foldr_depth : ∀ (f : ProfileFrame) (d : ℕ) (x pw : ℚ),
    ((flattenGo f d x pw).map (fun r => r.depth)).foldr max 0 = getMaxDepthAux f d
  | ⟨n, v, cs⟩, d, x, pw => by
    rw [flattenGo, getMaxDepthAux, List.map_cons, List.foldr_cons,
      flattenChildren_foldr_depth cs (d + 1) x pw
        (if totalChildValue cs = 0 then 1 else totalChildValue cs)]
    rcases cs with _ | ⟨c, cs⟩
    · rw [getMaxDepthChildren]
      simp
    · simp only [List.isEmpty_cons, Bool.false_eq_true, if_false]
      exact Nat.max_eq_right
        (Nat.le_of_succ_le (le_getMaxDepthChildren (c :: cs) (d + 1) (by simp)))
/-- The maximum depth over a child-loop layout equals the children's
maximum. -/
theorem flattenChildren_foldr_depth : ∀ (cs : List ProfileFrame) (d : ℕ)
    (cx pw t : ℚ),
    ((flattenChildren cs d cx pw t).map (fun r => r.depth)).foldr max 0
      = getMaxDepthChildren cs d
  | [], d, cx, pw, t => by
    rw [flattenChildren, getMaxDepthChildren]
    rfl
  | c :: cs, d, cx, pw, t => by
    rw [flattenChildren, getMaxDepthChildren, List.map_append, foldr_max_append,
      flattenGo_foldr_depth c d cx (pw * (c.value / t)),
      flattenChildren_foldr_depth cs d (cx + pw * (c.value / t)) pw t]
end

/-- C4 counterexample: for the childless root, `getMaxDepth` is 0, while
the maximum emitted depth plus one — the claimed value, which is what the
`Flamegraph` component's `maxDepth` computes — is 1. -/
theorem getMaxDepth_plus_one_cex :
    getMaxDepth emptyRoot = 0 ∧
    componentMaxDepth emptyRoot = 1 ∧
    getMaxDepth emptyRoot
      ≠ ((flattenFrames emptyRoot).map (fun r => r.depth)).foldr max 0 + 1 := by
  refine ⟨?_, ?_, ?_⟩ <;>
    simp +decide [getMaxDepth, getMaxDepthAux, componentMaxDepth, flattenFrames,
      flattenGo, flattenChildren, totalChildValue, emptyRoot]

/-- C4 amended: `getMaxDepth root` equals the maximum `depth` across all
rectangles emitted by the layout — without the claimed `+ 1`; the component's
`maxDepth` is that maximum plus one; and for a root with no children
`getMaxDepth` is 0, not 1. -/
theorem getMaxDepth_layout (root : ProfileFrame) :
    getMaxDepth root = ((flattenFrames root).map (fun r => r.depth)).foldr max 0 ∧
    componentMaxDepth root = getMaxDepth root + 1 ∧
    (root.children = [] → getMaxDepth root = 0) := by
  refine ⟨?_, ?_, ?_⟩
  · rw [getMaxDepth, flattenFrames, flattenGo_foldr_depth root 0 0 1]
  · rw [componentMaxDepth, flattenFrames, getMaxDepth,
      flattenGo_foldr_depth root 0 0 1]
  · intro h0
    rcases root with ⟨n, v, cs⟩
    simp only at h0
    subst h0
    rw [getMaxDepth, getMaxDepthAux]
    simp

/-- C4 amendment witness: at the childless root. -/
theorem getMaxDepth_layout_witness :
    getMaxDepth emptyRoot
      = ((flattenFrames emptyRoot).map (fun r => r.depth)).foldr max 0 ∧
    getMaxDepth emptyRoot = 0 :=
  ⟨(getMaxDepth_layout emptyRoot).1, (getMaxDepth_layout emptyRoot).2.2 rfl⟩

/-! ### C5: the parser is total, and frameless input gives the empty root -/

/-- `updateFirst` preserves non-negativity when the update and the default
do. -/
theorem framesNonNeg_updateFirst (nm : String) (upd : ProfileFrame → ProfileFrame)
    (dflt : ProfileFrame)
    (hupd : ∀ c, frameNonNeg c = true → frameNonNeg (upd c) = true)
    (hd : frameNonNeg dflt = true) :
    ∀ cs, framesNonNeg cs = true → framesNonNeg (updateFirst nm upd dflt cs) = true
  | [], _ => by
    rw [updateFirst, framesNonNeg, framesNonNeg]
    simp [hd]
  | c :: cs, h => by
    rw [framesNonNeg, Bool.and_eq_true] at h
    rw [updateFirst]
    by_cases hname : c.name = nm
    · rw [if_pos hname, framesNonNeg, Bool.and_eq_true]
      exact ⟨hupd c h.1, h.2⟩
    · rw [if_neg hname, framesNonNeg, Bool.and_eq_true]
      exact ⟨h.1, framesNonNeg_updateFirst nm upd dflt hupd hd cs h.2⟩

/-- Merging a stack with non-negative weight preserves non-negativity of the
forest. -/
theorem framesNonNeg_insertStack : ∀ (stack : List String) (w : ℚ)
    (cs : List ProfileFrame), 0 ≤ w → framesNonNeg cs = true →
    framesNonNeg (insertStack stack w cs) = true
  | [], _, cs, _, h => by rw [insertStack]; exact h
  | f :: rest, w, cs, hw, h => by
    rw [insertStack]
    refine framesNonNeg_updateFirst f _ _ ?_ ?_ cs h
    · intro c hc
      rcases c with ⟨n, v, cc⟩
      rw [frameNonNeg, Bool.and_eq_true, decide_eq_true_eq] at hc
      rw [frameNonNeg, Bool.and_eq_true, decide_eq_true_eq]
      exact ⟨by linarith [hc.1], framesNonNeg_insertStack rest w cc hw hc.2⟩
    · rw [frameNonNeg, Bool.and_eq_true, decide_eq_true_eq]
      exact ⟨hw, framesNonNeg_insertStack rest w [] hw rfl⟩

/-- `addStackToTree` preserves non-negativity and the root's name. -/
theorem frameNonNeg_addStackToTree (root : ProfileFrame) (stack : List String)
    (w : ℚ) (hr : frameNonNeg root = true) (hw : 0 ≤ w) :
    frameNonNeg (addStackToTree root stack w) = true := by
  rcases root with ⟨n, v, cs⟩
  rw [frameNonNeg, Bool.and_eq_true, decide_eq_true_eq] at hr
  rw [addStackToTree, frameNonNeg, Bool.and_eq_true, decide_eq_true_eq]
  exact ⟨by linarith [hr.1], framesNonNeg_insertStack stack w cs hw hr.2⟩

/-- One parser step preserves: a non-negative tree, a non-negative sample
weight, and the root's name. -/
theorem processLine_invariant (st : ParseState) (line : List Char)
    (h1 : frameNonNeg st.root = true) (h2 : 0 ≤ st.currentSamples) :
    frameNonNeg (processLine st line).root = true ∧
    0 ≤ (processLine st line).currentSamples ∧
    (processLine st line).root.name = st.root.name := by
  simp only [processLine]
  split
  · split
    · exact ⟨h1, h2, rfl⟩
    · exact ⟨frameNonNeg_addStackToTree st.root _ _ h1 h2, by norm_num, rfl⟩
  · split
    · exact ⟨h1, Nat.cast_nonneg _, rfl⟩
    · split
      · exact ⟨h1, h2, rfl⟩
      · exact ⟨h1, h2, rfl⟩

/-- The parser-loop invariant, folded over all lines. -/
theorem foldl_processLine_invariant : ∀ (lines : List (List Char))
    (st : ParseState), frameNonNeg st.root = true → 0 ≤ st.currentSamples →
    frameNonNeg (lines.foldl processLine st).root = true ∧
    0 ≤ (lines.foldl processLine st).currentSamples ∧
    (lines.foldl processLine st).root.name = st.root.name
  | [], _, h1, h2 => ⟨h1, h2, rfl⟩
  | l :: ls, st, h1, h2 => by
    rw [List.foldl_cons]
    have hstep := processLine_invariant st l h1 h2
    have hrest := foldl_processLine_invariant ls (processLine st l) hstep.1 hstep.2.1
    exact ⟨hrest.1, hrest.2.1, hrest.2.2.trans hstep.2.2⟩

/-- A line contributes a frame name exactly when it is neither a boundary
nor a sample count and the classifier extracts a name from it. -/
def lineContributes (line : List Char) : Bool :=
  !isBoundary (trimChars line) && (sampleCountMatch (trimChars line)).isNone
    && (lineFrameName (trimChars line)).isSome

/-- A non-contributing line leaves an empty-stack parser state's root and
stack unchanged. -/
theorem processLine_no_frame (st : ParseState) (l : List Char)
    (hc : lineContributes l = false) (hst : st.currentStack = []) :
    (processLine st l).root = st.root ∧ (processLine st l).currentStack = [] := by
  simp only [processLine]
  by_cases hb : isBoundary (trimChars l)
  · rw [if_pos hb]
    have hempt : st.currentStack.isEmpty = true := by rw [hst]; rfl
    rw [if_pos hempt]
    exact ⟨rfl, hst⟩
  · rw [if_neg hb]
    rcases hsc : sampleCountMatch (trimChars l) with _ | n
    · rcases hlf : lineFrameName (trimChars l) with _ | nm
      · exact ⟨rfl, hst⟩
      · rw [lineContributes, hsc, hlf] at hc
        simp [hb] at hc
    · exact ⟨rfl, hst⟩

/-- If no line contributes a frame, the whole loop leaves the root and the
stack untouched. -/
theorem foldl_processLine_no_frames : ∀ (lines : List (List Char))
    (st : ParseState), (∀ l ∈ lines, lineContributes l = false) →
    st.currentStack = [] →
    (lines.foldl processLine st).root = st.root ∧
    (lines.foldl processLine st).currentStack = []
  | [], _, _, hst => ⟨rfl, hst⟩
  | l :: ls, st, h, hst => by
    rw [List.foldl_cons]
    have hstep := processLine_no_frame st l (h l (List.mem_cons_self l ls)) hst
    have hrest := foldl_processLine_no_frames ls (processLine st l)
      (fun x hx => h x (List.mem_cons_of_mem l hx)) hstep.2
    exact ⟨hrest.1.trans hstep.1, hrest.2⟩

/-- C5: for every input string `parseTracesOutput` returns a well-formed
tree — all weights non-negative, root named `"root"` (totality of the Lean
function embeds the no-exception contract); and whenever no line yields a
usable frame name (in particular on the empty input), the result is the
fresh root of weight 0 with no children, whose `getMaxDepth` is 0. -/
theorem parseTracesOutput_spec (s : String) :
    frameNonNeg (parseTracesOutput s) = true ∧
    (parseTracesOutput s).name = "root" ∧
    ((∀ l ∈ splitOnNl s.toList, lineContributes l = false) →
      parseTracesOutput s = ⟨"root", 0, []⟩ ∧
      getMaxDepth (parseTracesOutput s) = 0) := by
  have hinit : frameNonNeg (⟨"root", 0, []⟩ : ProfileFrame) = true := by
    rw [frameNonNeg]
    simp [framesNonNeg]
  have hinv := foldl_processLine_invariant (splitOnNl s.toList)
    ⟨⟨"root", 0, []⟩, [], 1⟩ hinit (by norm_num)
  refine ⟨?_, ?_, ?_⟩
  · simp only [parseTracesOutput]
    split
    · exact hinv.1
    · exact frameNonNeg_addStackToTree _ _ _ hinv.1 hinv.2.1
  · simp only [parseTracesOutput]
    split
    · exact hinv.2.2
    · exact hinv.2.2
  · intro h
    have hloop := foldl_processLine_no_frames (splitOnNl s.toList)
      ⟨⟨"root", 0, []⟩, [], 1⟩ h rfl
    have hempty : ((splitOnNl s.toList).foldl processLine
        ⟨⟨"root", 0, []⟩, [], 1⟩).currentStack.isEmpty = true := by
      rw [hloop.2]; rfl
    have hping : parseTracesOutput s = ⟨"root", 0, []⟩ := by
      simp only [parseTracesOutput]
      rw [if_pos hempty]
      exact hloop.1
    refine ⟨hping, ?_⟩
    rw [hping, getMaxDepth, getMaxDepthAux]
    simp

/-- C5 witness: the empty input. -/
theorem parseTracesOutput_spec_witness :
    parseTracesOutput "" = ⟨"root", 0, []⟩ ∧
    getMaxDepth (parseTracesOutput "") = 0 :=
  (parseTracesOutput_spec "").2.2 (by decide)

/-! ### C8: the fallback token rule holds only for lines not starting `#` -/

/-- `trimChars` is a front segment of the input with its leading whitespace
removed: stripping trailing whitespace only removes a tail. -/
theorem trimChars_front_of_dropWhile (l : List Char) :
    trimChars l <+: l.dropWhile isWs := by
  refine ⟨((l.dropWhile isWs).reverse.takeWhile isWs).reverse, ?_⟩
  rw [trimChars, ← List.reverse_append, List.takeWhile_append_dropWhile,
    List.reverse_reverse]

/-- A non-empty trimmed line starts with a non-whitespace character. -/
theorem trimChars_head_not_ws (l : List Char) (c : Char) (rest : List Char)
    (h : trimChars l = c :: rest) : isWs c = false := by
  have hpre := trimChars_front_of_dropWhile l
  rw [h] at hpre
  obtain ⟨t, ht⟩ := hpre
  have hne : l.dropWhile isWs ≠ [] := by
    rw [← ht]; simp
  have hhead : (l.dropWhile isWs).head hne = c := by
    have h2 : (l.dropWhile isWs).head? = some c := by rw [← ht]; rfl
    rw [List.head?_eq_head hne] at h2
    exact Option.some.inj h2
  have hnot := List.head_dropWhile_not isWs l hne
  rw [hhead] at hnot
  exact hnot

/-- The first whitespace-delimited token of a non-empty trimmed line is
non-empty. -/
theorem trimChars_firstTok_ne_nil (l : List Char)
    (h : (trimChars l).isEmpty = false) :
    ((trimChars l).takeWhile (fun c => !isWs c)).isEmpty = false := by
  rcases hL : trimChars l with _ | ⟨c, rest⟩
  · rw [hL] at h; cases h
  · have hc := trimChars_head_not_ws l c rest hL
    rw [List.takeWhile_cons]
    simp [hc]

/-- C8 amended: for every trimmed, non-empty line that is not a boundary,
not a sample count, does not match the frame regex, **and does not start
with `#`**, the classifier pushes the line's first whitespace-delimited
token — unless that token is numeric-like, in which case the line
contributes nothing.  (The claim omits the `#` restriction; the
counterexample shows it is necessary.) -/
theorem classifier_fallback_token (st : ParseState) (line : List Char)
    (hne : (trimChars line).isEmpty = false)
    (hb : isBoundary (trimChars line) = false)
    (hs : sampleCountMatch (trimChars line) = none)
    (hf : funcMatchName (trimChars line) = none)
    (hh : ['#'].isPrefixOf (trimChars line) = false) :
    processLine st line =
      if numericLikeTok ((trimChars line).takeWhile (fun c => !isWs c)) then st
      else ⟨st.root,
        st.currentStack ++
          [String.mk ((trimChars line).takeWhile (fun c => !isWs c))],
        st.currentSamples⟩ := by
  have htok := trimChars_firstTok_ne_nil line hne
  simp only [processLine, hb, Bool.false_eq_true, if_false, hs]
  simp only [lineFrameName, hf, hne, hh, Bool.not_false, Bool.and_self, if_true,
    htok]
  by_cases hnum : numericLikeTok ((trimChars line).takeWhile (fun c => !isWs c))
  · rw [hnum]
    simp
  · simp only [hnum, Bool.not_false, Bool.and_true, if_true, Bool.false_eq_true,
      if_false]

/-- C8 amendment witness: the line `"zzz 1"`: trimmed, non-boundary, not a
sample count, no frame-regex match, not starting `#`; its first token
`"zzz"` is pushed. -/
theorem classifier_fallback_token_witness :
    processLine ⟨⟨"root", 0, []⟩, [], 1⟩ ("zzz 1".toList) =
      if numericLikeTok ((trimChars ("zzz 1".toList)).takeWhile (fun c => !isWs c))
      then ⟨⟨"root", 0, []⟩, [], 1⟩
      else ⟨⟨"root", 0, []⟩,
        [] ++ [String.mk ((trimChars ("zzz 1".toList)).takeWhile
          (fun c => !isWs c))], 1⟩ :=
  classifier_fallback_token ⟨⟨"root", 0, []⟩, [], 1⟩ ("zzz 1".toList)
    (by decide) (by decide) (by decide) (by decide) (by decide)

/-- C8 counterexample: the trimmed line `"#foo bar"` is non-empty, not a
boundary, not a sample count, does not match the frame regex, and its first
token `"#foo"` is not numeric-like — so the claim says `"#foo"` is
extracted; but the source skips every unmatched line that starts with `#`,
so the builder state is unchanged and no frame is pushed. -/
theorem classifier_hash_line_cex :
    trimChars ("#foo bar".toList) = "#foo bar".toList ∧
    isBoundary ("#foo bar".toList) = false ∧
    sampleCountMatch ("#foo bar".toList) = none ∧
    funcMatchName ("#foo bar".toList) = none ∧
    ("#foo bar".toList).takeWhile (fun c => !isWs c) = "#foo".toList ∧
    numericLikeTok ("#foo".toList) = false ∧
    processLine ⟨⟨"root", 0, []⟩, [], 1⟩ ("#foo bar".toList)
      = ⟨⟨"root", 0, []⟩, [], 1⟩ ∧
    ¬ ((processLine ⟨⟨"root", 0, []⟩, [], 1⟩ ("#foo bar".toList)).currentStack
        = [String.mk ("#foo".toList)]) := by
  refine ⟨by decide, by decide, by decide, by decide, by decide, by decide,
    rfl, by decide⟩

end FlameSpec
